import Mathlib

/-!
Verification development for the `search-ui` repository fragment:
an analytics REST client (`AnalyticsEndpoint`) and an omnibox
suggestions widget (`AnalyticsSuggestions`).

The TypeScript sources are shallowly embedded as Lean functions:
pure helpers become Lean functions over `List String` / `String`,
the widget and endpoint session state become explicit records, and
the promise-based request sequencing of `sendToService` becomes a
small step relation on an explicit simulator state.
-/

set_option autoImplicit false
set_option maxRecDepth 16384

/-! ## `cleanCustomData` (AnalyticsSuggestions.ts, lines 142-173)

JavaScript strings are embedded as Lean `String`s, with `String.length`
standing for the JS `.length`, and `Array.prototype.join(';')` embedded
as the recursive `joinSemi`. -/

/-- Embedding of `_.filter(toClean, (p, pos, array) => pos === 0 || p !== array[pos - 1])`:
an entry is kept iff it is at position 0 or differs from its predecessor in the
original array. `prev` threads the predecessor of the original array. -/
def collapseGo (prev : String) : List String → List String
  | [] => []
  | x :: xs => (if x = prev then [] else [x]) ++ collapseGo x xs

/-- Consecutive-duplicate collapsing, first step of `cleanCustomData`. -/
def collapseConsecutive : List String → List String
  | [] => []
  | a :: rest => a :: collapseGo a rest

/-- Embedding of `partial.replace(/;/g, '')`: removes every `;` character. -/
def stripSemis (s : String) : String :=
  ⟨s.data.filter (fun c => c != ';')⟩

/-- Embedding of the JS `array.join(';')`. -/
def joinSemi : List String → String
  | [] => ""
  | [s] => s
  | s :: rest => s ++ ";" ++ joinSemi rest

/-- Embedding of the `_.reduceRight` pass of `cleanCustomData`: iterates from the
last element to the first with the running total `memo` of entry lengths, pushing
an entry onto the accumulator whenever `memo + partial.length <= rejectLength`.
Returns the pushed list (in push order, i.e. reversed) and the final total. -/
def reduceRightAccum (rejectLength : Int) (l : List String) : List String × Nat :=
  l.foldr
    (fun p acc =>
      let total := acc.2 + p.length
      ((if (total : Int) ≤ rejectLength then acc.1 ++ [p] else acc.1), total))
    ([], 0)

/-- Sum of the entry lengths (no separators), the quantity the `reduceRight`
pass accumulates in `memo`. -/
def sumLen : List String → Nat
  | [] => 0
  | s :: rest => s.length + sumLen rest

/-- Order-preserving characterisation of the `reduceRight` pass: an entry is kept
iff the total length of the entries from it to the end is at most the budget. -/
def keptPass (rejectLength : Int) : List String → List String
  | [] => []
  | p :: rest =>
      (if (sumLen (p :: rest) : Int) ≤ rejectLength then [p] else []) ++ keptPass rejectLength rest

/-- One pass of `cleanCustomData` before the length check: collapse consecutive
duplicates, strip `;` from every entry, run the `reduceRight` pass and restore
the original order (`reducedToRejectLengthOrLess.reverse()`). -/
def cleanPass (rejectLength : Int) (toClean : List String) : List String :=
  ((reduceRightAccum rejectLength ((collapseConsecutive toClean).map stripSemis)).1).reverse

theorem sumLen_cons (s : String) (l : List String) : sumLen (s :: l) = s.length + sumLen l := rfl

theorem reduceRightAccum_spec (rejectLength : Int) (l : List String) :
    reduceRightAccum rejectLength l = ((keptPass rejectLength l).reverse, sumLen l) := by
  induction l with
  | nil => rfl
  | cons p rest ih =>
    simp only [reduceRightAccum, List.foldr_cons] at *
    rw [ih]
    simp only [keptPass, sumLen_cons, Nat.add_comm p.length (sumLen rest)]
    by_cases h : ((sumLen rest + p.length : Nat) : Int) ≤ rejectLength
    · rw [if_pos h, if_pos h]
      simp
    · rw [if_neg h, if_neg h]
      simp

theorem cleanPass_eq_keptPass (rejectLength : Int) (toClean : List String) :
    cleanPass rejectLength toClean
      = keptPass rejectLength ((collapseConsecutive toClean).map stripSemis) := by
  rw [cleanPass, reduceRightAccum_spec, List.reverse_reverse]

/-- If the whole list fits in the budget, the pass keeps everything. -/
theorem keptPass_of_le (rejectLength : Int) (l : List String)
    (h : (sumLen l : Int) ≤ rejectLength) : keptPass rejectLength l = l := by
  induction l with
  | nil => rfl
  | cons p rest ih =>
    rw [keptPass, if_pos h, ih (by rw [sumLen_cons] at h; push_cast at h ⊢; omega)]
    rfl

theorem keptPass_suffix (rejectLength : Int) (l : List String) :
    List.IsSuffix (keptPass rejectLength l) l := by
  induction l with
  | nil => exact List.nil_suffix
  | cons p rest ih =>
    rw [keptPass]
    by_cases h : (sumLen (p :: rest) : Int) ≤ rejectLength
    · rw [if_pos h, keptPass_of_le rejectLength rest
        (by rw [sumLen_cons] at h; push_cast at h ⊢; omega)]
      exact List.suffix_refl _
    · rw [if_neg h, List.nil_append]
      exact ih.trans (List.suffix_cons p rest)

theorem keptPass_ne_nil_imp (rejectLength : Int) (l : List String)
    (h : keptPass rejectLength l ≠ []) : 0 ≤ rejectLength := by
  induction l with
  | nil => exact absurd rfl h
  | cons p rest ih =>
    rw [keptPass] at h
    by_cases hle : (sumLen (p :: rest) : Int) ≤ rejectLength
    · have : (0 : Int) ≤ (sumLen (p :: rest) : Int) := Int.ofNat_nonneg _
      omega
    · rw [if_neg hle, List.nil_append] at h
      exact ih h

theorem joinSemi_nil : joinSemi [] = "" := rfl

theorem joinSemi_ne_nil_of_length (l : List String) (h : 256 ≤ (joinSemi l).length) :
    l ≠ [] := by
  intro hnil
  subst hnil
  simp [joinSemi_nil] at h

theorem cleanPass_ne_nil_imp (rejectLength : Int) (toClean : List String)
    (h : cleanPass rejectLength toClean ≠ []) : 0 ≤ rejectLength := by
  rw [cleanPass_eq_keptPass] at h
  exact keptPass_ne_nil_imp _ _ h

/-- Embedding of `cleanCustomData` (lines 142-173): runs `cleanPass`, joins with `;`,
and if the joined string still reaches 256 characters, retries with the budget
reduced by 10 on the already-reduced list. -/
def cleanCustomData (toClean : List String) (rejectLength : Int) : String :=
  if h : 256 ≤ (joinSemi (cleanPass rejectLength toClean)).length then
    cleanCustomData (cleanPass rejectLength toClean) (rejectLength - 10)
  else
    joinSemi (cleanPass rejectLength toClean)
termination_by (rejectLength + 10).toNat
decreasing_by
  have hne : cleanPass rejectLength toClean ≠ [] := joinSemi_ne_nil_of_length _ h
  have hR : 0 ≤ rejectLength := cleanPass_ne_nil_imp _ _ hne
  omega

/-- The list of entries that `cleanCustomData` ends up joining: same recursion as
`cleanCustomData`, returning the final kept list instead of the joined string. -/
def cleanCustomDataKept (toClean : List String) (rejectLength : Int) : List String :=
  if h : 256 ≤ (joinSemi (cleanPass rejectLength toClean)).length then
    cleanCustomDataKept (cleanPass rejectLength toClean) (rejectLength - 10)
  else
    cleanPass rejectLength toClean
termination_by (rejectLength + 10).toNat
decreasing_by
  have hne : cleanPass rejectLength toClean ≠ [] := joinSemi_ne_nil_of_length _ h
  have hR : 0 ≤ rejectLength := cleanPass_ne_nil_imp _ _ hne
  omega

theorem cleanCustomData_eq_joinSemi_kept (toClean : List String) (rejectLength : Int) :
    cleanCustomData toClean rejectLength = joinSemi (cleanCustomDataKept toClean rejectLength) := by
  induction toClean, rejectLength using cleanCustomData.induct with
  | case1 toClean rejectLength h ih =>
    rw [cleanCustomData, cleanCustomDataKept, dif_pos h, dif_pos h, ih]
  | case2 toClean rejectLength h =>
    rw [cleanCustomData, cleanCustomDataKept, dif_neg h, dif_neg h]

/-- Every string `cleanCustomData` returns has length strictly below 256:
the only non-recursive exit is guarded by `ret.length >= 256` being false. -/
theorem cleanCustomData_length_lt (toClean : List String) (rejectLength : Int) :
    (cleanCustomData toClean rejectLength).length < 256 := by
  induction toClean, rejectLength using cleanCustomData.induct with
  | case1 toClean rejectLength h ih =>
    rw [cleanCustomData, dif_pos h]
    exact ih
  | case2 toClean rejectLength h =>
    rw [cleanCustomData, dif_neg h]
    omega

/-! ### Structural lemmas about the collapsing, stripping and kept-run passes -/

theorem collapseGo_chain (prev : String) (l : List String) :
    List.Chain' (· ≠ ·) (prev :: collapseGo prev l) := by
  induction l generalizing prev with
  | nil => simp [collapseGo]
  | cons x xs ih =>
    rw [collapseGo]
    by_cases h : x = prev
    · rw [if_pos h, List.nil_append]
      subst h
      exact ih x
    · rw [if_neg h]
      exact List.chain'_cons.mpr ⟨fun he => h he.symm, ih x⟩

theorem collapseGo_eq_self (prev : String) (l : List String)
    (h : List.Chain' (· ≠ ·) (prev :: l)) : collapseGo prev l = l := by
  induction l generalizing prev with
  | nil => rfl
  | cons x xs ih =>
    obtain ⟨hne, hchain⟩ := List.chain'_cons.mp h
    rw [collapseGo, if_neg (fun he => hne he.symm), ih x hchain]
    rfl

theorem collapseConsecutive_chain (l : List String) :
    List.Chain' (· ≠ ·) (collapseConsecutive l) := by
  cases l with
  | nil => simp [collapseConsecutive]
  | cons a rest => exact collapseGo_chain a rest

theorem collapseConsecutive_eq_self (l : List String)
    (h : List.Chain' (· ≠ ·) l) : collapseConsecutive l = l := by
  cases l with
  | nil => rfl
  | cons a rest => rw [collapseConsecutive, collapseGo_eq_self a rest h]

theorem collapseConsecutive_idem (l : List String) :
    collapseConsecutive (collapseConsecutive l) = collapseConsecutive l :=
  collapseConsecutive_eq_self _ (collapseConsecutive_chain l)

theorem collapseGo_sublist (prev : String) (l : List String) :
    (collapseGo prev l).Sublist l := by
  induction l generalizing prev with
  | nil => exact List.Sublist.refl _
  | cons x xs ih =>
    rw [collapseGo]
    by_cases h : x = prev
    · rw [if_pos h, List.nil_append]
      exact (ih x).cons x
    · rw [if_neg h]
      exact (ih x).cons₂ x

theorem collapseConsecutive_sublist (l : List String) :
    (collapseConsecutive l).Sublist l := by
  cases l with
  | nil => exact List.Sublist.refl _
  | cons a rest => exact (collapseGo_sublist a rest).cons₂ a

theorem getLast?_cons_of_ne_nil {α : Type} (a : α) (l : List α) (h : l ≠ []) :
    (a :: l).getLast? = l.getLast? := by
  cases l with
  | nil => exact absurd rfl h
  | cons b t => exact List.getLast?_cons_cons

theorem collapseGo_getLast? (prev : String) (l : List String) :
    (prev :: collapseGo prev l).getLast? = (prev :: l).getLast? := by
  induction l generalizing prev with
  | nil => rfl
  | cons x xs ih =>
    rw [collapseGo]
    by_cases h : x = prev
    · rw [if_pos h, List.nil_append]
      subst h
      rw [ih x, List.getLast?_cons_cons]
    · rw [if_neg h, List.singleton_append, List.getLast?_cons_cons,
        List.getLast?_cons_cons, ih x]

theorem collapseConsecutive_getLast? (l : List String) :
    (collapseConsecutive l).getLast? = l.getLast? := by
  cases l with
  | nil => rfl
  | cons a rest => exact collapseGo_getLast? a rest

theorem stripSemis_data (s : String) :
    (stripSemis s).data = s.data.filter (fun c => c != ';') := rfl

theorem semi_not_mem_stripSemis (s : String) : ';' ∉ (stripSemis s).data := by
  rw [stripSemis_data]
  intro h
  have := (List.mem_filter.mp h).2
  simp at this

theorem stripSemis_idem (s : String) : stripSemis (stripSemis s) = stripSemis s := by
  apply congrArg String.mk
  exact List.filter_eq_self.mpr (fun c hc => (List.mem_filter.mp hc).2)

theorem mem_map_stripSemis {x : String} {l : List String}
    (h : x ∈ l.map stripSemis) : stripSemis x = x ∧ ';' ∉ x.data := by
  obtain ⟨y, _, rfl⟩ := List.mem_map.mp h
  exact ⟨stripSemis_idem y, semi_not_mem_stripSemis y⟩

theorem map_stripSemis_eq_self {u : List String}
    (hu : ∀ x ∈ u, stripSemis x = x) : u.map stripSemis = u := by
  induction u with
  | nil => rfl
  | cons a t ih =>
    rw [List.map_cons, hu a (List.mem_cons_self a t),
      ih (fun x hx => hu x (List.mem_cons_of_mem a hx))]

theorem getLast?_append_of_ne_nil {α : Type} (u s : List α) (h : s ≠ []) :
    (u ++ s).getLast? = s.getLast? := by
  induction u with
  | nil => rfl
  | cons a t ih =>
    rw [List.cons_append, getLast?_cons_of_ne_nil a (t ++ s) (by simp [h]), ih]

theorem suffix_getLast? {s t : List String} (hsuff : List.IsSuffix s t) (h : s ≠ []) :
    s.getLast? = t.getLast? := by
  obtain ⟨u, rfl⟩ := hsuff
  exact (getLast?_append_of_ne_nil u s h).symm

theorem cleanPass_nil (rejectLength : Int) : cleanPass rejectLength [] = [] := rfl

theorem cleanCustomDataKept_nil (rejectLength : Int) :
    cleanCustomDataKept [] rejectLength = [] := by
  rw [cleanCustomDataKept]
  simp [cleanPass_nil, joinSemi_nil]

theorem cleanPass_mem_stripped (rejectLength : Int) (toClean : List String) :
    ∀ x ∈ cleanPass rejectLength toClean, x ∈ (collapseConsecutive toClean).map stripSemis :=
  fun _x hx =>
    ((cleanPass_eq_keptPass rejectLength toClean ▸ keptPass_suffix rejectLength _).sublist).mem hx

theorem cleanCustomDataKept_sublist (toClean : List String) (rejectLength : Int) :
    (cleanCustomDataKept toClean rejectLength).Sublist
      ((collapseConsecutive toClean).map stripSemis) := by
  induction toClean, rejectLength using cleanCustomDataKept.induct with
  | case1 toClean rejectLength h ih =>
    rw [cleanCustomDataKept, dif_pos h]
    have hmapid : ((collapseConsecutive (cleanPass rejectLength toClean)).map stripSemis)
        = collapseConsecutive (cleanPass rejectLength toClean) :=
      map_stripSemis_eq_self (fun x hx =>
        (mem_map_stripSemis (cleanPass_mem_stripped rejectLength toClean x
          ((collapseConsecutive_sublist _).mem hx))).1)
    have step : ((collapseConsecutive (cleanPass rejectLength toClean)).map stripSemis).Sublist
        ((collapseConsecutive toClean).map stripSemis) := by
      rw [hmapid]
      exact (collapseConsecutive_sublist _).trans
        ((cleanPass_eq_keptPass rejectLength toClean ▸
          keptPass_suffix rejectLength _).sublist)
    exact ih.trans step
  | case2 toClean rejectLength h =>
    rw [cleanCustomDataKept, dif_neg h]
    exact (cleanPass_eq_keptPass rejectLength toClean ▸
      keptPass_suffix rejectLength _).sublist

theorem cleanCustomDataKept_getLast? (toClean : List String) (rejectLength : Int)
    (hne : cleanCustomDataKept toClean rejectLength ≠ []) :
    (cleanCustomDataKept toClean rejectLength).getLast?
      = ((collapseConsecutive toClean).map stripSemis).getLast? := by
  induction toClean, rejectLength using cleanCustomDataKept.induct with
  | case1 toClean rejectLength h ih =>
    rw [cleanCustomDataKept, dif_pos h] at hne ⊢
    have ht3 : cleanPass rejectLength toClean ≠ [] := by
      intro h0
      rw [h0, cleanCustomDataKept_nil] at hne
      exact hne rfl
    have hmapid : ((collapseConsecutive (cleanPass rejectLength toClean)).map stripSemis)
        = collapseConsecutive (cleanPass rejectLength toClean) :=
      map_stripSemis_eq_self (fun x hx =>
        (mem_map_stripSemis (cleanPass_mem_stripped rejectLength toClean x
          ((collapseConsecutive_sublist _).mem hx))).1)
    rw [ih hne, hmapid, collapseConsecutive_getLast?]
    exact suffix_getLast?
      (cleanPass_eq_keptPass rejectLength toClean ▸ keptPass_suffix rejectLength _) ht3
  | case2 toClean rejectLength h =>
    rw [cleanCustomDataKept, dif_neg h] at hne ⊢
    exact suffix_getLast?
      (cleanPass_eq_keptPass rejectLength toClean ▸ keptPass_suffix rejectLength _) hne

/-! ### Spec-side definitions and the claims about `cleanCustomData` -/

/-- Modelled from the spec, amended: the longest trailing run of entries whose
total entry-length sum (not counting the `;` separators) is within the budget,
found by scanning from the end. -/
def longestSuffixSumWithin (rejectLength : Int) : List String → List String
  | [] => []
  | p :: rest =>
      if (sumLen (p :: rest) : Int) ≤ rejectLength then p :: rest
      else longestSuffixSumWithin rejectLength rest

/-- Modelled from the spec, as stated by the claim: the longest trailing run of
entries whose joined-with-`;` length is within the budget. -/
def longestSuffixJoinedWithin (rejectLength : Int) : List String → List String
  | [] => []
  | p :: rest =>
      if ((joinSemi (p :: rest)).length : Int) ≤ rejectLength then p :: rest
      else longestSuffixJoinedWithin rejectLength rest

theorem keptPass_eq_longestSuffixSumWithin (rejectLength : Int) (l : List String) :
    keptPass rejectLength l = longestSuffixSumWithin rejectLength l := by
  induction l with
  | nil => rfl
  | cons p rest ih =>
    rw [keptPass, longestSuffixSumWithin]
    by_cases h : (sumLen (p :: rest) : Int) ≤ rejectLength
    · rw [if_pos h, if_pos h, keptPass_of_le rejectLength rest
        (by rw [sumLen_cons] at h; push_cast at h ⊢; omega)]
      rfl
    · rw [if_neg h, if_neg h, List.nil_append, ih]

/-- A 90-entry list of alternating two-character entries: no consecutive
duplicates and no semicolons, entry-length sum 180, joined length 269. -/
def altPairs : List String := (List.replicate 45 ["ab", "cd"]).flatten

/-- C2 witness input: a single entry of 257 characters. -/
def oversizedInput : List String := [String.mk (List.replicate 257 'x')]

/-- C2: on input whose joined length exceeds 256 characters, `cleanCustomData`
returns a semicolon-joined string of length strictly below 256, and the entries
it joins are drawn, in order, from the collapsed and delimiter-stripped input,
ending (when any entry survives) with that list's most recent entry. -/
theorem claim_C2 (l : List String) (_h : 256 < (joinSemi l).length) :
    (cleanCustomData l 256).length < 256 ∧
    ∃ ks, cleanCustomData l 256 = joinSemi ks ∧
      ks.Sublist ((collapseConsecutive l).map stripSemis) ∧
      (ks ≠ [] → ks.getLast? = ((collapseConsecutive l).map stripSemis).getLast?) :=
  ⟨cleanCustomData_length_lt l 256,
    cleanCustomDataKept l 256,
    cleanCustomData_eq_joinSemi_kept l 256,
    cleanCustomDataKept_sublist l 256,
    fun hne => cleanCustomDataKept_getLast? l 256 hne⟩

theorem claim_C2_witness :
    256 < (joinSemi oversizedInput).length ∧
    ((cleanCustomData oversizedInput 256).length < 256 ∧
      ∃ ks, cleanCustomData oversizedInput 256 = joinSemi ks ∧
        ks.Sublist ((collapseConsecutive oversizedInput).map stripSemis) ∧
        (ks ≠ [] →
          ks.getLast? = ((collapseConsecutive oversizedInput).map stripSemis).getLast?)) :=
  ⟨by decide, claim_C2 oversizedInput (by decide)⟩

/-- C3 counterexample: with the default budget 256, the `reduceRight` pass keeps
all 90 entries of `altPairs` (entry-length sum 180 fits the budget) even though
their joined-with-`;` length is 269, whereas the longest trailing run whose
joined length fits 256 has only 85 entries. The pass compares the sum of entry
lengths, not the joined length, against the budget. -/
theorem claim_C3_counterexample :
    cleanPass 256 altPairs
        ≠ longestSuffixJoinedWithin 256 ((collapseConsecutive altPairs).map stripSemis) ∧
    (cleanPass 256 altPairs).length = 90 ∧
    (longestSuffixJoinedWithin 256
        ((collapseConsecutive altPairs).map stripSemis)).length = 85 := by
  decide

/-- C3 amended: after duplicate collapsing and delimiter stripping, the entries
the `reduceRight` pass retains are exactly the longest trailing run whose total
entry-length sum, not counting the `;` separators, is within the budget,
determined by scanning from the end of the list. -/
theorem claim_C3_amended (toClean : List String) (rejectLength : Int) :
    cleanPass rejectLength toClean
      = longestSuffixSumWithin rejectLength ((collapseConsecutive toClean).map stripSemis) := by
  rw [cleanPass_eq_keptPass, keptPass_eq_longestSuffixSumWithin]

/-- C4: `cleanCustomData` collapses consecutive duplicates first (so a
pre-collapsed list gives the same result) and strips every `;` from the kept
entries (the result is a `;`-join of `;`-free entries); in particular
`cleanCustomData ["a", "a", "b"]` with the default budget returns `"a;b"`. -/
theorem claim_C4 :
    cleanCustomData ["a", "a", "b"] 256 = "a;b" ∧
    (∀ (l : List String) (rejectLength : Int),
      cleanCustomData (collapseConsecutive l) rejectLength = cleanCustomData l rejectLength) ∧
    (∀ (l : List String) (rejectLength : Int),
      ∃ ks, cleanCustomData l rejectLength = joinSemi ks ∧ ∀ s ∈ ks, ';' ∉ s.data) := by
  refine ⟨?_, ?_, ?_⟩
  · have hp : cleanPass 256 ["a", "a", "b"] = ["a", "b"] := by decide
    conv_lhs => rw [cleanCustomData]
    rw [hp, dif_neg (by decide)]
    decide
  · intro l rejectLength
    have hpass : cleanPass rejectLength (collapseConsecutive l) = cleanPass rejectLength l := by
      rw [cleanPass, cleanPass, collapseConsecutive_idem]
    conv_lhs => rw [cleanCustomData]
    conv_rhs => rw [cleanCustomData]
    rw [hpass]
  · intro l rejectLength
    exact ⟨cleanCustomDataKept l rejectLength,
      cleanCustomData_eq_joinSemi_kept l rejectLength,
      fun s hs =>
        (mem_map_stripSemis ((cleanCustomDataKept_sublist l rejectLength).mem hs)).2⟩

/-! ## The suggestions widget (AnalyticsSuggestions.ts)

Rendered DOM rows are modelled by their zero-based index in the rendered list;
`currentlyDisplayedSuggestions` (a JS object keyed by rendered label, holding
`{element, pos}`) is modelled as an association list `label -> (element, pos)`
built with overwrite-on-existing-key semantics. `resultsToBuildWith`, a list of
`{value: string}` records, is modelled by its list of `value` strings. -/

/-- JS whitespace characters trimmed by ToNumber coercion, for the label forms
relevant here. -/
def jsWhitespace (c : Char) : Bool :=
  c == ' ' || c == '\t' || c == '\n' || c == '\r'

def isJsDigit (c : Char) : Bool := '0' ≤ c && c ≤ '9'

def isJsHexDigit (c : Char) : Bool := isJsDigit c || ('a' ≤ c && c ≤ 'f')

def digitRun (l : List Char) : Bool := !l.isEmpty && l.all isJsDigit

/-- Decimal mantissa forms recognised by JS `Number`: `digits`, `digits.`,
`digits.digits`, `.digits`. -/
def jsMantissa (l : List Char) : Bool :=
  match l.splitOn '.' with
  | [a] => digitRun a
  | [a, b] => (digitRun a && (b.isEmpty || b.all isJsDigit)) || (a.isEmpty && digitRun b)
  | _ => false

def jsSignedDigits (l : List Char) : Bool :=
  match l with
  | '+' :: r => digitRun r
  | '-' :: r => digitRun r
  | _ => digitRun l

/-- Model of the JS test `!isNaN(s)` for a string `s`: whether `Number(s)`
produces a number. Covers the whitespace/empty, signed decimal, exponent,
`Infinity` and radix-literal forms of the ToNumber coercion. -/
def jsIsNumericString (s : String) : Bool :=
  match ((s.data.dropWhile jsWhitespace).reverse.dropWhile jsWhitespace).reverse.map
      Char.toLower with
  | [] => true
  | '0' :: 'x' :: r => !r.isEmpty && r.all isJsHexDigit
  | '0' :: 'o' :: r => !r.isEmpty && r.all (fun c => '0' ≤ c && c ≤ '7')
  | '0' :: 'b' :: r => !r.isEmpty && r.all (fun c => c == '0' || c == '1')
  | t =>
      let body := match t with
        | '+' :: r => r
        | '-' :: r => r
        | _ => t
      if body == "infinity".data then true
      else match body.splitOn 'e' with
        | [m] => jsMantissa m
        | [m, ex] => jsMantissa m && jsSignedDigits ex
        | _ => false

/-- The widget's mutable fields (AnalyticsSuggestions.ts, lines 35-38). -/
structure WidgetState where
  partialQueries : List String
  lastSuggestions : List String
  resultsToBuildWith : List String
  currentlyDisplayedSuggestions : Option (List (String × Nat × Nat))
deriving DecidableEq

/-- JS object assignment `obj[k] = v`: overwrite the value when the key exists
(keeping its place), append otherwise. -/
def insertOrUpdate (m : List (String × Nat × Nat)) (k : String) (v : Nat × Nat) :
    List (String × Nat × Nat) :=
  if m.any (fun e => e.1 == k) then m.map (fun e => if e.1 == k then (k, v) else e)
  else m ++ [(k, v)]

/-- Embedding of the loop building `currentlyDisplayedSuggestions` (lines 110-115):
for each rendered selectable at index `i` with text `label`, assign
`currentlyDisplayedSuggestions[label] = {element, pos: i}`. The element is
modelled by its render index. -/
def buildSuggestionMap (labels : List String) : List (String × Nat × Nat) :=
  (labels.enumFrom 0).foldl (fun m p => insertOrUpdate m p.2 (p.1, p.1)) []

/-- The two overloads of `selectSuggestion`. -/
inductive SuggestionIdentifier where
  | byLabel (s : String)
  | byPos (n : Nat)
deriving DecidableEq

/-- Embedding of `selectSuggestion` (lines 70-85): the element clicked, if any,
together with its rendered label. A numeric-like string identifier fails
`isNaN` and is routed to the `_.findWhere({pos: suggestion})` branch, where the
strict comparison of a string against the numeric `pos` fields never matches. -/
def selectSuggestionClick (st : WidgetState) : SuggestionIdentifier → Option (String × Nat)
  | .byLabel s =>
      match st.currentlyDisplayedSuggestions with
      | none => none
      | some m =>
          if jsIsNumericString s then none
          else
            match m.find? (fun e => e.1 == s) with
            | some e => some (e.1, e.2.1)
            | none => none
  | .byPos n =>
      match st.currentlyDisplayedSuggestions with
      | none => none
      | some m =>
          match m.find? (fun e => e.2.2 == n) with
          | some e => some (e.1, e.2.1)
          | none => none

/-- Embedding of `_.indexOf`: first index of the value, `-1` when absent. -/
def jsIndexOfAux (v : String) (i : Int) : List String → Int
  | [] => -1
  | x :: xs => if x == v then i else jsIndexOfAux v (i + 1) xs

def jsIndexOf (l : List String) (v : String) : Int := jsIndexOfAux v 0 l

/-- The custom-event metadata logged by `onRowSelection` (lines 133-138). -/
structure TopSuggestionMeta where
  partialQueries : String
  suggestionRanking : Int
  suggestions : String
  partialQuery : String
deriving DecidableEq

/-- The host-visible effects of `onRowSelection` (lines 129-140). -/
structure RowSelectionEffects where
  clearedOmnibox : Bool
  closedOmnibox : Bool
  qValue : String
  logged : TopSuggestionMeta
  executedQuery : Bool
deriving DecidableEq

/-- Embedding of `onRowSelection`: clears and closes the host box, sets the
query state to the chosen value, logs the top-suggestion event and triggers
query execution. `word` is `args.completeQueryExpression.word`. -/
def onRowSelection (st : WidgetState) (word value : String) : RowSelectionEffects :=
  { clearedOmnibox := true
    closedOmnibox := true
    qValue := value
    logged :=
      { partialQueries := cleanCustomData st.partialQueries 256
        suggestionRanking := jsIndexOf st.resultsToBuildWith value
        suggestions := cleanCustomData st.lastSuggestions 256
        partialQuery := word }
    executedQuery := true }

/-- The value the deferred promise pushed by `handlePopulateOmnibox` resolves
with: the rendered element (modelled by its row labels) and the stacking
z-index, both absent on the failure path. -/
structure OmniboxResolution where
  element : Option (List String)
  zIndex : Option Nat
deriving DecidableEq

/-- Embedding of `handlePopulateOmnibox` (lines 87-127), parameterised by the
settled outcome of the `getTopQueries` call. Both the `then` and the `catch`
callback resolve the deferred promise, so the model returns a resolution
totally: the pushed promise never rejects. -/
def handlePopulateOmnibox (st : WidgetState) (word : String) (zIdx : Nat)
    (outcome : Except Unit (List String)) : WidgetState × OmniboxResolution :=
  match outcome with
  | .ok results =>
      ({ partialQueries :=
           if !results.isEmpty && word != "" then st.partialQueries ++ [word]
           else st.partialQueries
         lastSuggestions := results
         resultsToBuildWith := results
         currentlyDisplayedSuggestions := some (buildSuggestionMap results) },
       { element := some results, zIndex := some zIdx })
  | .error _ => (st, { element := none, zIndex := none })

/-- A `selectSuggestion` call together with the row-click handler it may
trigger: a successful lookup simulates a click on the row, which runs
`onRowSelection` with that row's value; otherwise nothing happens. The
widget's own fields are not mutated by either path. -/
def selectSuggestion (st : WidgetState) (word : String) (ident : SuggestionIdentifier) :
    WidgetState × Option (Nat × RowSelectionEffects) :=
  match selectSuggestionClick st ident with
  | none => (st, none)
  | some (lab, el) => (st, some (el, onRowSelection st word lab))

/-! ### Lemmas about the suggestion map and the widget claims -/

theorem insertOrUpdate_of_fresh (m : List (String × Nat × Nat)) (k : String) (v : Nat × Nat)
    (h : ∀ e ∈ m, e.1 ≠ k) : insertOrUpdate m k v = m ++ [(k, v)] := by
  rw [insertOrUpdate, if_neg]
  simp only [List.any_eq_true, beq_iff_eq, not_exists, not_and]
  exact fun e he => h e he

/-- The association list built from pairwise-distinct labels lists each label
with its render index, in order. -/
theorem buildSuggestionMap_go (l : List String) : ∀ (n : Nat) (m : List (String × Nat × Nat)),
    l.Nodup → (∀ lab ∈ l, ∀ e ∈ m, e.1 ≠ lab) →
    (l.enumFrom n).foldl (fun m p => insertOrUpdate m p.2 (p.1, p.1)) m
      = m ++ (l.enumFrom n).map (fun p => (p.2, p.1, p.1)) := by
  induction l with
  | nil => intro n m _ _; simp
  | cons a t ih =>
    intro n m hnodup hfresh
    rw [List.enumFrom_cons]
    simp only [List.foldl_cons, List.map_cons]
    rw [insertOrUpdate_of_fresh m a (n, n) (fun e he => hfresh a (List.mem_cons_self a t) e he)]
    rw [ih (n + 1) (m ++ [(a, n, n)]) (List.Nodup.of_cons hnodup) ?_]
    · simp
    · intro lab hlab e he
      rcases List.mem_append.mp he with hm | hs
      · exact hfresh lab (List.mem_cons_of_mem a hlab) e hm
      · rw [List.mem_singleton.mp hs]
        intro hcontra
        have ha : a = lab := hcontra
        exact (List.nodup_cons.mp hnodup).1 (ha.symm ▸ hlab)

theorem buildSuggestionMap_nodup (labels : List String) (h : labels.Nodup) :
    buildSuggestionMap labels
      = (labels.enumFrom 0).map (fun p => (p.2, p.1, p.1)) := by
  rw [buildSuggestionMap, buildSuggestionMap_go labels 0 [] h (by intro lab _ e he; simp at he)]
  rfl

theorem find?_label_enumFrom (l : List String) : ∀ (n i : Nat) (h : i < l.length),
    l.Nodup →
    ((l.enumFrom n).map (fun p => (p.2, p.1, p.1))).find? (fun e => e.1 == l.get ⟨i, h⟩)
      = some (l.get ⟨i, h⟩, n + i, n + i) := by
  induction l with
  | nil => intro n i h; simp at h
  | cons a t ih =>
    intro n i h hnodup
    rw [List.enumFrom_cons, List.map_cons]
    match i with
    | 0 =>
      rw [List.find?_cons_of_pos _ (by simp [List.get])]
      simp [List.get]
    | j + 1 =>
      have hj : j < t.length := by simpa using h
      have hget : (a :: t).get ⟨j + 1, h⟩ = t.get ⟨j, hj⟩ := rfl
      rw [List.find?_cons_of_neg _ ?_]
      · have := ih (n + 1) j hj (List.Nodup.of_cons hnodup)
        rw [hget, this]
        have harith : n + 1 + j = n + (j + 1) := by omega
        rw [harith]
      · simp only [hget, beq_iff_eq]
        intro hcontra
        exact (List.nodup_cons.mp hnodup).1 (hcontra ▸ List.get_mem t j hj)

theorem find?_pos_enumFrom (l : List String) : ∀ (n i : Nat) (h : i < l.length),
    ((l.enumFrom n).map (fun p => (p.2, p.1, p.1))).find? (fun e => e.2.2 == n + i)
      = some (l.get ⟨i, h⟩, n + i, n + i) := by
  induction l with
  | nil => intro n i h; simp at h
  | cons a t ih =>
    intro n i h
    rw [List.enumFrom_cons, List.map_cons]
    match i with
    | 0 =>
      rw [List.find?_cons_of_pos _ (by simp)]
      simp [List.get]
    | j + 1 =>
      have hj : j < t.length := by simpa using h
      have hget : (a :: t).get ⟨j + 1, h⟩ = t.get ⟨j, hj⟩ := rfl
      rw [List.find?_cons_of_neg _ (by simp)]
      have := ih (n + 1) j hj
      have harith : n + 1 + j = n + (j + 1) := by omega
      rw [harith] at this
      rw [hget, this]

/-- C6: on a rejected top-queries query, the deferred promise pushed by
`handlePopulateOmnibox` resolves — the model produces a resolution on every
outcome, mirroring that both the `then` and the `catch` callback call
`resolve` — and the resolution carries an undefined element (and z-index),
with the widget state untouched. -/
theorem claim_C6 (st : WidgetState) (word : String) (zIdx : Nat) :
    (handlePopulateOmnibox st word zIdx (Except.error ())).2
        = { element := none, zIndex := none } ∧
    (handlePopulateOmnibox st word zIdx (Except.error ())).1 = st :=
  ⟨rfl, rfl⟩

theorem jsIndexOfAux_eq (v : String) (l : List String) : ∀ i : Int,
    jsIndexOfAux v i l = if v ∈ l then i + (l.indexOf v : Int) else -1 := by
  induction l with
  | nil => intro i; simp [jsIndexOfAux]
  | cons x xs ih =>
    intro i
    rw [jsIndexOfAux]
    by_cases hx : x = v
    · subst hx
      rw [if_pos (by simp), if_pos (List.mem_cons_self x xs)]
      simp [List.indexOf_cons_self]
    · rw [if_neg (by simp [hx]), ih (i + 1)]
      by_cases hmem : v ∈ xs
      · rw [if_pos hmem, if_pos (List.mem_cons_of_mem x hmem)]
        rw [List.indexOf_cons_ne _ (by simpa using hx)]
        push_cast
        omega
      · rw [if_neg hmem,
          if_neg (show ¬v ∈ x :: xs by
            simp only [List.mem_cons, not_or]
            exact ⟨fun h => hx h.symm, hmem⟩)]

theorem jsIndexOf_eq (l : List String) (v : String) :
    jsIndexOf l v = if v ∈ l then (l.indexOf v : Int) else -1 := by
  rw [jsIndexOf, jsIndexOfAux_eq]
  by_cases hmem : v ∈ l
  · rw [if_pos hmem, if_pos hmem, Int.zero_add]
  · rw [if_neg hmem, if_neg hmem]

/-- C7: after a populate with fetched suggestion list `rs`, the
`suggestionRanking` field logged by `onRowSelection` for a chosen value is its
zero-based index in `rs`, and `-1` when the value does not occur in `rs`. -/
theorem claim_C7 (st : WidgetState) (word : String) (zIdx : Nat) (rs : List String)
    (v : String) :
    (onRowSelection ((handlePopulateOmnibox st word zIdx (Except.ok rs)).1) word v
        ).logged.suggestionRanking
      = if v ∈ rs then (rs.indexOf v : Int) else -1 := by
  simp only [onRowSelection, handlePopulateOmnibox]
  exact jsIndexOf_eq rs v

/-- A widget state whose single rendered suggestion has the numeric label `"2"`. -/
def numericLabelState : WidgetState :=
  { partialQueries := []
    lastSuggestions := ["2"]
    resultsToBuildWith := ["2"]
    currentlyDisplayedSuggestions := some (buildSuggestionMap ["2"]) }

/-- C8 counterexample: the label `"2"` is rendered at position 0, and
`selectSuggestion(0)` clicks that row, but `selectSuggestion("2")` clicks
nothing: `isNaN("2")` is false, so the string is routed to the
`findWhere({pos: "2"})` branch where it never strictly equals a numeric
position. The two calls do not trigger the identical selection action. -/
theorem claim_C8_counterexample :
    (buildSuggestionMap ["2"]).find? (fun e => e.2.2 == 0) = some ("2", 0, 0) ∧
    selectSuggestionClick numericLabelState (.byPos 0) = some ("2", 0) ∧
    selectSuggestionClick numericLabelState (.byLabel "2") = none ∧
    selectSuggestionClick numericLabelState (.byLabel "2")
      ≠ selectSuggestionClick numericLabelState (.byPos 0) := by
  decide

/-- C8 amended: when the rendered labels are pairwise distinct and none of them
is a string that JavaScript coerces to a number (so `isNaN(label)` holds), then
for every rendered position `i`, selecting by position `i` and selecting by the
label rendered at `i` trigger the identical selection action: a click on the
same element. -/
theorem claim_C8_amended (labels : List String) (st : WidgetState)
    (hdisp : st.currentlyDisplayedSuggestions = some (buildSuggestionMap labels))
    (hnodup : labels.Nodup)
    (hnonnum : ∀ lab ∈ labels, jsIsNumericString lab = false)
    (i : Nat) (h : i < labels.length) :
    selectSuggestionClick st (.byLabel (labels.get ⟨i, h⟩)) = some (labels.get ⟨i, h⟩, i) ∧
    selectSuggestionClick st (.byPos i) = some (labels.get ⟨i, h⟩, i) := by
  have hmap := buildSuggestionMap_nodup labels hnodup
  constructor
  · simp only [selectSuggestionClick, hdisp, hmap]
    rw [if_neg (by rw [hnonnum _ (List.get_mem labels i h)]; simp)]
    rw [find?_label_enumFrom labels 0 i h hnodup]
    simp
  · simp only [selectSuggestionClick, hdisp, hmap]
    have hpos := find?_pos_enumFrom labels 0 i h
    rw [Nat.zero_add] at hpos
    rw [hpos]

/-- A widget state with two distinct non-numeric rendered labels, for the C8
witness. -/
def widgetStateW : WidgetState :=
  { partialQueries := []
    lastSuggestions := ["alpha", "beta"]
    resultsToBuildWith := ["alpha", "beta"]
    currentlyDisplayedSuggestions := some (buildSuggestionMap ["alpha", "beta"]) }

theorem claim_C8_witness :
    selectSuggestionClick widgetStateW (.byLabel "beta") = some ("beta", 1) ∧
    selectSuggestionClick widgetStateW (.byPos 1) = some ("beta", 1) :=
  claim_C8_amended ["alpha", "beta"] widgetStateW rfl (by decide) (by decide) 1 (by decide)

/-- The identifier matches no currently displayed suggestion, by label for a
string identifier and by position for a numeric one. -/
def identMatchesNone (m : List (String × Nat × Nat)) : SuggestionIdentifier → Prop
  | .byLabel s => ∀ e ∈ m, e.1 ≠ s
  | .byPos n => ∀ e ∈ m, e.2.2 ≠ n

/-- C10: when no suggestion list has been rendered yet, or the identifier
matches no displayed suggestion by label or position, `selectSuggestion`
triggers no click, logs no event and leaves the widget state unchanged. -/
theorem claim_C10 (st : WidgetState) (word : String) (ident : SuggestionIdentifier)
    (h : st.currentlyDisplayedSuggestions = none ∨
      ∃ m, st.currentlyDisplayedSuggestions = some m ∧ identMatchesNone m ident) :
    selectSuggestion st word ident = (st, none) := by
  have hclick : selectSuggestionClick st ident = none := by
    rcases h with hnone | ⟨m, hm, hmatch⟩
    · cases ident <;> simp [selectSuggestionClick, hnone]
    · cases ident with
      | byLabel s =>
        simp only [selectSuggestionClick, hm]
        by_cases hnum : jsIsNumericString s
        · rw [if_pos hnum]
        · rw [if_neg hnum, List.find?_eq_none.mpr
            (fun e he => by simpa using hmatch e he)]
      | byPos n =>
        simp only [selectSuggestionClick, hm]
        rw [List.find?_eq_none.mpr (fun e he => by simpa using hmatch e he)]
  rw [selectSuggestion, hclick]

/-- The widget before any populate: no suggestion list rendered. -/
def emptyWidgetState : WidgetState :=
  { partialQueries := []
    lastSuggestions := []
    resultsToBuildWith := []
    currentlyDisplayedSuggestions := none }

theorem claim_C10_witness :
    selectSuggestion emptyWidgetState "wor" (.byLabel "foo") = (emptyWidgetState, none) :=
  claim_C10 emptyWidgetState "wor" (.byLabel "foo") (Or.inl rfl)

/-! ## The analytics endpoint (AnalyticsEndpoint, src/unnamed/part_000)

Event payloads are modelled as opaque strings. A non-unload `sendToService`
call is described by the sub-path and parameter name it posts with; the
promise-based single-pending-request sequencing becomes an explicit simulator
state over which sends and settlements are small steps. -/

/-- The payload of a non-unload send. -/
inductive AnalyticsPayload where
  | searchEvents (evs : List String)
  | customEvent (e : String)
deriving DecidableEq

/-- Description of one `sendToService` call: the data, the sub-path appended to
`/analytics/`, and the parameter name. -/
structure SendDescr where
  payload : AnalyticsPayload
  path : String
  paramName : String
deriving DecidableEq

/-- Embedding of `sendSearchEvents` (lines 70-75): with a non-empty batch it
posts to the `searches` sub-path tagged `searchEvents`; with an empty batch it
does nothing and returns `undefined` (modelled as `none`). -/
def sendSearchEvents (searchEvents : List String) : Option SendDescr :=
  if searchEvents.length > 0 then
    some { payload := .searchEvents searchEvents, path := "searches", paramName := "searchEvents" }
  else
    none

/-- Embedding of `sendCustomEvent` (lines 84-88): posts to the `custom`
sub-path tagged `customEvent`. -/
def sendCustomEvent (e : String) : SendDescr :=
  { payload := .customEvent e, path := "custom", paramName := "customEvent" }

/-- Simulator state for the non-unload branch of `sendToService`:
`pending` is the process-wide `AnalyticsEndpoint.pendingRequest` slot
(identified by a request id), `inFlight` the network requests currently
outstanding, `waiting` the sends deferred with `.finally` on the pending
promise, in attachment order. -/
structure EndpointSim where
  pending : Option Nat
  inFlight : List (Nat × SendDescr)
  waiting : List SendDescr
  nextId : Nat
deriving DecidableEq

/-- Embedding of the non-unload branch of `sendToService` (lines 107-117):
with no pending request, `sendUsingEndpointCaller` starts the network call and
installs its promise in the pending slot; otherwise the send is deferred on the
pending promise and will re-enter the sequencing logic when it settles. -/
def issueSend (s : EndpointSim) (d : SendDescr) : EndpointSim :=
  match s.pending with
  | none =>
      { pending := some s.nextId
        inFlight := s.inFlight ++ [(s.nextId, d)]
        waiting := s.waiting
        nextId := s.nextId + 1 }
  | some _ => { s with waiting := s.waiting ++ [d] }

/-- Settlement of the request at the head of `inFlight` (success or failure):
the `.finally` inside `sendUsingEndpointCaller` clears the pending slot, after
which each deferred send's `.finally` continuation runs in attachment order and
re-enters `sendToService`. -/
def settleStep (s : EndpointSim) : EndpointSim :=
  match s.inFlight with
  | [] => s
  | _ :: rest =>
      s.waiting.foldl issueSend
        { pending := none, inFlight := rest, waiting := [], nextId := s.nextId }

/-- The observable events driving the simulator. -/
inductive EpAction where
  | searchEvents (evs : List String)
  | customEvent (e : String)
  | settle

def epStep (s : EndpointSim) : EpAction → EndpointSim
  | .searchEvents evs =>
      match sendSearchEvents evs with
      | none => s
      | some d => issueSend s d
  | .customEvent e => issueSend s (sendCustomEvent e)
  | .settle => settleStep s

def epInit : EndpointSim :=
  { pending := none, inFlight := [], waiting := [], nextId := 0 }

def runEp (acts : List EpAction) : EndpointSim := acts.foldl epStep epInit

/-- The sequencing invariant: either nothing is pending (and then nothing is in
flight and nothing is waiting), or exactly the pending request is in flight. -/
def EpInv (s : EndpointSim) : Prop :=
  (s.pending = none ∧ s.inFlight = [] ∧ s.waiting = []) ∨
  ∃ r d, s.pending = some r ∧ s.inFlight = [(r, d)]

theorem issueSend_inv (s : EndpointSim) (d : SendDescr) (h : EpInv s) :
    EpInv (issueSend s d) := by
  rcases h with ⟨hp, hf, hw⟩ | ⟨r, d0, hp, hf⟩
  · right
    exact ⟨s.nextId, d, by simp [issueSend, hp, hf]⟩
  · right
    exact ⟨r, d0, by simp [issueSend, hp, hf]⟩

theorem foldl_issueSend_inv (ws : List SendDescr) : ∀ (s : EndpointSim), EpInv s →
    EpInv (ws.foldl issueSend s) := by
  induction ws with
  | nil => intro s h; exact h
  | cons d rest ih =>
    intro s h
    exact ih (issueSend s d) (issueSend_inv s d h)

theorem settleStep_inv (s : EndpointSim) (h : EpInv s) : EpInv (settleStep s) := by
  rcases h with ⟨hp, hf, hw⟩ | ⟨r, d0, hp, hf⟩
  · rw [settleStep, hf]
    exact Or.inl ⟨hp, hf, hw⟩
  · rw [settleStep, hf]
    exact foldl_issueSend_inv s.waiting _ (Or.inl ⟨rfl, rfl, rfl⟩)

theorem epStep_inv (s : EndpointSim) (a : EpAction) (h : EpInv s) : EpInv (epStep s a) := by
  cases a with
  | searchEvents evs =>
    rw [epStep]
    cases sendSearchEvents evs with
    | none => exact h
    | some d => exact issueSend_inv s d h
  | customEvent e => exact issueSend_inv s _ h
  | settle => exact settleStep_inv s h

theorem runEp_inv (acts : List EpAction) : EpInv (runEp acts) := by
  rw [runEp]
  have : ∀ (s : EndpointSim), EpInv s → EpInv (acts.foldl epStep s) := by
    induction acts with
    | nil => intro s h; exact h
    | cons a rest ih => intro s h; exact ih (epStep s a) (epStep_inv s a h)
  exact this epInit (Or.inl ⟨rfl, rfl, rfl⟩)

/-- C1: in every reachable simulator state, at most one non-unload request is
in flight; and while a request is pending, a further non-unload send starts no
network call — it is only appended to the deferred sends that re-enter the
sequencing logic once the pending promise settles. -/
theorem claim_C1 (acts : List EpAction) :
    (runEp acts).inFlight.length ≤ 1 ∧
    ∀ d : SendDescr, (runEp acts).pending ≠ none →
      (issueSend (runEp acts) d).inFlight = (runEp acts).inFlight ∧
      (issueSend (runEp acts) d).waiting = (runEp acts).waiting ++ [d] := by
  constructor
  · rcases runEp_inv acts with ⟨_, hf, _⟩ | ⟨r, d0, _, hf⟩ <;> simp [hf]
  · intro d hp
    match hpe : (runEp acts).pending with
    | none => exact absurd hpe hp
    | some r => exact ⟨by simp [issueSend, hpe], by simp [issueSend, hpe]⟩

theorem claim_C1_witness :
    (runEp [EpAction.customEvent "a"]).inFlight.length ≤ 1 ∧
    (issueSend (runEp [EpAction.customEvent "a"]) (sendCustomEvent "b")).inFlight
        = (runEp [EpAction.customEvent "a"]).inFlight ∧
    (issueSend (runEp [EpAction.customEvent "a"]) (sendCustomEvent "b")).waiting
        = (runEp [EpAction.customEvent "a"]).waiting ++ [sendCustomEvent "b"] :=
  ⟨(claim_C1 [EpAction.customEvent "a"]).1,
    (claim_C1 [EpAction.customEvent "a"]).2 (sendCustomEvent "b") (by decide)⟩

/-- C9: `sendSearchEvents` on the empty list returns nothing and the simulator
performs no step at all (zero network calls, no state change); on a non-empty
list it produces a post to the `searches` sub-path tagged `searchEvents`. -/
theorem claim_C9 :
    sendSearchEvents [] = none ∧
    (∀ s : EndpointSim, epStep s (.searchEvents []) = s) ∧
    (∀ evs : List String, evs ≠ [] →
      sendSearchEvents evs
        = some { payload := .searchEvents evs, path := "searches",
                 paramName := "searchEvents" }) := by
  refine ⟨rfl, fun s => rfl, fun evs hne => ?_⟩
  rw [sendSearchEvents, if_pos]
  cases evs with
  | nil => exact absurd rfl hne
  | cons a t => simp

theorem claim_C9_witness :
    sendSearchEvents ["ev"]
      = some { payload := .searchEvents ["ev"], path := "searches",
               paramName := "searchEvents" } :=
  claim_C9.2.2 ["ev"] (by decide)

/-! ## Visit/visitor session handling (AnalyticsEndpoint, lines 48-67 and 152-172)

Fields that may be `undefined` in JS are `Option String`; JS truthiness of a
string field (`undefined` and `""` are falsy) is `truthyStr`. The instance
field `this.visitId` and the `visitorId` cookie form the session state. -/

def truthyStr : Option String → Bool
  | none => false
  | some s => s != ""

/-- One element of a batched `searchEventResponses` array. -/
structure APIEventResponse where
  visitId : Option String
  visitorId : Option String
deriving DecidableEq

/-- The decoded body handed to `handleAnalyticsEventResponse`. -/
structure AnalyticsResponse where
  visitId : Option String
  visitorId : Option String
  searchEventResponses : Option (List APIEventResponse)
deriving DecidableEq

/-- The session state: `this.visitId` and the long-lived `visitorId` cookie. -/
structure EndpointState where
  visitId : Option String
  cookieVisitorId : Option String
deriving DecidableEq

def getCurrentVisitId (st : EndpointState) : Option String := st.visitId

/-- Outcome of `getCurrentVisitIdPromise`: an immediate resolution from the
cached id, or a GET to the visit endpoint. -/
inductive VisitIdPromiseOutcome where
  | immediate (id : String)
  | viaVisitRequest (url : String)
deriving DecidableEq

/-- `CUSTOM_ANALYTICS_VERSION || DEFAULT_ANALYTICS_VERSION`: the custom version
is `undefined`, so the default `v15` is used. -/
def ANALYTICS_VERSION : String := "v15"

def buildAnalyticsUrl (serviceUrl path : String) : String :=
  serviceUrl ++ "/rest/" ++ ANALYTICS_VERSION ++ path

/-- Embedding of `getCurrentVisitIdPromise` (lines 52-67): resolves at once
when a visit id is cached, otherwise issues the GET to `/analytics/visit`. -/
def getCurrentVisitIdPromise (serviceUrl : String) (st : EndpointState) :
    VisitIdPromiseOutcome :=
  if truthyStr (getCurrentVisitId st) then
    .immediate ((getCurrentVisitId st).getD "")
  else
    .viaVisitRequest (buildAnalyticsUrl serviceUrl "/analytics/visit")

/-- Embedding of `handleAnalyticsEventResponse` (lines 152-172): probe the body
for a direct truthy `visitId`, else for a `searchEventResponses` array whose
first element supplies the pair; store a truthy visit id in the session and a
truthy visitor id in the cookie, and return the response. `none` models the
TypeError thrown when `searchEventResponses` is an empty array and
`_.first` yields `undefined`. -/
def handleAnalyticsEventResponse (st : EndpointState) (r : AnalyticsResponse) :
    Option (EndpointState × AnalyticsResponse) :=
  match
    (if truthyStr r.visitId then some (r.visitId, r.visitorId)
     else
       match r.searchEventResponses with
       | some [] => none
       | some (e :: _) => some (e.visitId, e.visitorId)
       | none => some (none, none) : Option (Option String × Option String))
  with
  | none => none
  | some (vid, vorid) =>
      let st1 := if truthyStr vid then { st with visitId := vid } else st
      let st2 := if truthyStr vorid then { st1 with cookieVisitorId := vorid } else st1
      some (st2, r)

/-- C5: a handled response that carries a truthy visitId/visitorId pair —
directly, or on the first element of a batched `searchEventResponses` — leaves
the session holding the new visit id, so that `getCurrentVisitId` returns it
and `getCurrentVisitIdPromise` resolves immediately with it (no network call),
and leaves the new visitor id in the cookie. -/
theorem claim_C5 (st : EndpointState) (r : AnalyticsResponse) (vid vorid : String)
    (serviceUrl : String) (hvid : vid ≠ "") (hvorid : vorid ≠ "")
    (hcarry :
      (r.visitId = some vid ∧ r.visitorId = some vorid) ∨
      (truthyStr r.visitId = false ∧
        ∃ rest, r.searchEventResponses
          = some ({ visitId := some vid, visitorId := some vorid } :: rest))) :
    handleAnalyticsEventResponse st r
        = some ({ visitId := some vid, cookieVisitorId := some vorid }, r) ∧
    getCurrentVisitId { visitId := some vid, cookieVisitorId := some vorid } = some vid ∧
    getCurrentVisitIdPromise serviceUrl { visitId := some vid, cookieVisitorId := some vorid }
        = .immediate vid := by
  have htrv : truthyStr (some vid) = true := by simp [truthyStr, hvid]
  have htrw : truthyStr (some vorid) = true := by simp [truthyStr, hvorid]
  refine ⟨?_, rfl, ?_⟩
  · rcases hcarry with ⟨hv, hw⟩ | ⟨hfalsy, rest, hbatch⟩
    · rw [handleAnalyticsEventResponse]
      rw [hv, hw, if_pos htrv]
      simp [htrv, htrw]
    · rw [handleAnalyticsEventResponse]
      rw [hbatch, if_neg (by rw [hfalsy]; simp)]
      simp [htrv, htrw]
  · rw [getCurrentVisitIdPromise, if_pos (by exact htrv)]
    rfl

def responseW : AnalyticsResponse :=
  { visitId := some "visit9", visitorId := some "visitor9", searchEventResponses := none }

theorem claim_C5_witness :
    handleAnalyticsEventResponse { visitId := none, cookieVisitorId := none } responseW
        = some ({ visitId := some "visit9", cookieVisitorId := some "visitor9" }, responseW) ∧
    getCurrentVisitId { visitId := some "visit9", cookieVisitorId := some "visitor9" }
        = some "visit9" ∧
    getCurrentVisitIdPromise "https://usageanalytics.coveo.com"
        { visitId := some "visit9", cookieVisitorId := some "visitor9" }
        = .immediate "visit9" :=
  claim_C5 { visitId := none, cookieVisitorId := none } responseW "visit9" "visitor9"
    "https://usageanalytics.coveo.com" (by decide) (by decide) (Or.inl ⟨rfl, rfl⟩)
